import Mathlib

/-!
# Verification of the whisper-media-catalog reconciliation and transcription engine

Shallow embedding of the catalog data model (`src/lib/database/models.py`),
the catalog reconciler (`src/lib/video_processor.py`), and the enrichment
orchestrator / keyword normalizer (`src/lib/transcriber/transcriber.py`).

Python strings are modelled as Lean `String`s (sequences of code points);
`str.lower` / `str.upper` / `str.capitalize` are modelled on the ASCII range,
which covers every string the formatting logic distinguishes.  External
collaborators (filesystem, ffmpeg metadata probe, the Whisper engine and the
OpenAI client) are oracles passed in as explicit function arguments.
-/

namespace MediaCatalog

/-! ## Python string primitives -/

/-- ASCII model of Python `str.lower` on a single character. -/
def lowerChar (c : Char) : Char :=
  if c.toNat ≥ 65 ∧ c.toNat ≤ 90 then Char.ofNat (c.toNat + 32) else c

/-- ASCII model of Python `str.upper` on a single character. -/
def upperChar (c : Char) : Char :=
  if c.toNat ≥ 97 ∧ c.toNat ≤ 122 then Char.ofNat (c.toNat - 32) else c

/-- Python `str.lower`. -/
def pyLower (s : String) : String := ⟨s.data.map lowerChar⟩

/-- Python `str.capitalize`: first character upper-cased, the rest lower-cased. -/
def pyCapitalize (s : String) : String :=
  match s.data with
  | [] => ""
  | c :: cs => ⟨upperChar c :: cs.map lowerChar⟩

/-- The characters Python `str.split()` treats as whitespace. -/
def pyIsSpace (c : Char) : Bool :=
  c = ' ' || c = '\t' || c = '\n' || c = '\r' || c = '\x0b' || c = '\x0c'

/-- Python `str.split()` (no separator): split on whitespace runs, dropping
empty fields. -/
def pySplitWs (s : String) : List String :=
  ((s.data.splitOnP pyIsSpace).filter (· ≠ [])).map (⟨·⟩)

/-- Python `str.split(sep)` for a one-character separator: empty fields kept. -/
def pySplitChar (sep : Char) (s : String) : List String :=
  (s.data.splitOnP (· = sep)).map (⟨·⟩)

/-- Python `str.strip()` (whitespace from both ends). -/
def pyStrip (s : String) : String :=
  ⟨(((s.data.dropWhile pyIsSpace).reverse.dropWhile pyIsSpace)).reverse⟩

/-- Python `str.rstrip(chars)`: remove trailing characters drawn from `chars`. -/
def pyRstripSet (chars : List Char) (s : String) : String :=
  ⟨(s.data.reverse.dropWhile (chars.contains ·)).reverse⟩

/-- Python `"x" in s` for a single character. -/
def pyContainsChar (c : Char) (s : String) : Bool := s.data.contains c

/-- Python `s[:n]` (by code points). -/
def takeChars (n : Nat) (s : String) : String := ⟨s.data.take n⟩

/-- Python `s.split(pat, 1)` when it yields two pieces: the text before the
first occurrence of `pat` and the text after it. `none` when `pat` does not
occur (where Python indexing `[1]` would raise `IndexError`). -/
def splitOnceList (pat : List Char) : List Char → Option (List Char × List Char)
  | [] => if pat.isPrefixOf ([] : List Char) then some ([], []) else none
  | c :: cs =>
    if pat.isPrefixOf (c :: cs) then some ([], (c :: cs).drop pat.length)
    else (splitOnceList pat cs).map (fun p => (c :: p.1, p.2))

/-- `splitOnceList` lifted to `String`. -/
def splitOnceSub (pat s : String) : Option (String × String) :=
  (splitOnceList pat.data s.data).map (fun p => (⟨p.1⟩, ⟨p.2⟩))

/-- Python `str.splitlines()` restricted to `'\n'` separators. -/
def pySplitLines (s : String) : List String :=
  if s = "" then []
  else
    let l := pySplitChar '\n' s
    if s.endsWith "\n" then l.dropLast else l

/-! ## Keyword casing (`VideoTranscriber.format_keyword_case`) -/

/-- The fixed table of special-cased tokens (`special_cases` in
`format_keyword_case`). -/
def specialCases : List (String × String) :=
  [("at&t", "AT&T"), ("t-mobile", "T-Mobile"), ("pse&g", "PSE&G"),
   ("verizon", "Verizon"), ("at", "AT"), ("aol", "AOL"), ("ibm", "IBM"),
   ("hp", "HP"), ("fcc", "FCC"), ("nasa", "NASA"), ("cnn", "CNN"),
   ("bbc", "BBC"), ("nbc", "NBC"), ("abc", "ABC"), ("cbs", "CBS"),
   ("espn", "ESPN"), ("fbi", "FBI"), ("cia", "CIA"), ("dea", "DEA"),
   ("atm", "ATM"), ("html", "HTML"), ("css", "CSS"), ("php", "PHP"),
   ("usa", "USA"), ("uk", "UK"), ("un", "UN"), ("eu", "EU"),
   ("msnbc", "MSNBC"), ("tv", "TV"), ("gps", "GPS"), ("hbo", "HBO"),
   ("wifi", "WiFi"), ("vpn", "VPN"), ("sms", "SMS"), ("mms", "MMS")]

/-- Dictionary lookup in the special-case table. -/
def lookupSpecial (s : String) : Option String :=
  (specialCases.find? (fun p => p.1 == s)).map (·.2)

/-- The `'&'` pass at the end of `format_keyword_case` (ensure words after
`&` are capitalized). -/
def ampProcess (result : String) : String :=
  match pySplitChar '&' result with
  | [] => result
  | p0 :: rest =>
    String.join (p0 :: rest.map (fun part =>
      if part ≠ "" ∧ part.data.head? ≠ some ' ' then
        "&" ++ pyCapitalize part
      else
        match pySplitWs part with
        | [] => "&"
        | w :: ws => "&" ++ String.intercalate " " (pyCapitalize w :: ws)))

/-- The body of `format_keyword_case` applied to the lower-cased keyword
(the Python function computes `keyword_lower = keyword.lower()` first and
never reads the original string again). -/
def formatKeywordLower (kl : String) : String :=
  match lookupSpecial kl with
  | some v => v
  | none =>
    let words := (pySplitWs kl).map (fun w =>
      match lookupSpecial w with
      | some v => v
      | none => pyCapitalize w)
    let result := String.intercalate " " words
    let result :=
      if pyContainsChar '-' result then
        String.intercalate "-" ((pySplitChar '-' result).map (fun part =>
          match lookupSpecial (pyLower part) with
          | some v => v
          | none => pyCapitalize part))
      else result
    if pyContainsChar '&' result then ampProcess result else result

/-- `VideoTranscriber.format_keyword_case`. -/
def formatKeywordCase (keyword : String) : String :=
  formatKeywordLower (pyLower keyword)

-- scratch sanity checks (validated against a hand trace of the Python)
example : formatKeywordCase "at&t" = "AT&T" := by decide
example : formatKeywordCase "AT&T" = "AT&T" := by decide
example : formatKeywordCase "machine learning" = "Machine Learning" := by decide
example : formatKeywordCase "t-mobile" = "T-Mobile" := by decide
example : formatKeywordCase "tv-show" = "TV-Show" := by decide
example : formatKeywordCase "a & b c" = "A &B C" := by decide
example : formatKeywordCase "A &B C" = "A &B c" := by decide

/-! ## Title and summary generation (`VideoTranscriber.generate_title_and_summary`) -/

/-- The trailing punctuation stripped from fallback titles
(`title.rstrip(',.!?:;')`). -/
def titlePunct : List Char := [',', '.', '!', '?', ':', ';']

/-- The fallback title computation (`transcriber.py` lines 525–536): first 7
words joined, `"..."` appended when truncated, trailing punctuation stripped,
first character upper-cased. -/
def fallbackTitle (transcript_text : String) : String :=
  let words := pySplitWs transcript_text
  let title_words := if words.length > 7 then words.take 7 else words
  let title := String.intercalate " " title_words
  let title := if words.length > 7 then title ++ "..." else title
  let title := pyRstripSet titlePunct title
  if title ≠ "" then
    match title.data with
    | [] => title
    | c :: cs => ⟨upperChar c :: cs⟩
  else title

/-- The sentence loop of the fallback summary (`transcriber.py` lines
539–554), with Python's `break` modelled by stopping the recursion. -/
def summaryLoop : List String → String → Nat → String
  | [], summary, _ => summary
  | sentence :: rest, summary, word_count =>
    let sentence_words := pySplitWs sentence
    if word_count + sentence_words.length ≤ 30 then
      let summary :=
        if summary ≠ "" ∧ ¬ summary.endsWith "." then summary ++ ". " else summary
      summaryLoop rest (summary ++ pyStrip sentence) (word_count + sentence_words.length)
    else
      let remaining := 30 - word_count
      if remaining > 0 then
        summary ++ " " ++ String.intercalate " " (sentence_words.take remaining) ++ "..."
      else summary

/-- The fallback summary computation (`transcriber.py` lines 538–557). -/
def fallbackSummary (transcript_text : String) : String :=
  let summary := summaryLoop (pySplitChar '.' transcript_text) "" 0
  if summary ≠ "" ∧ ¬ summary.endsWith "." ∧ ¬ summary.endsWith "..." then
    summary ++ "."
  else summary

/-- The deterministic local fallback of `generate_title_and_summary`. -/
def fallbackTitleAndSummary (transcript_text : String) : String × String :=
  (fallbackTitle transcript_text, fallbackSummary transcript_text)

/-- The OpenAI collaborator, as an oracle: a chat completion per prompt kind,
raising (`Except.error`) on API failure. -/
structure Client where
  titleResp : String → Except String String
  kwResp : String → Except String String

/-- The `except (IndexError, AttributeError)` branch of
`generate_title_and_summary`: use response lines, or the first 50 characters,
as the title. -/
def linesFallback (result : String) : String × String :=
  let lines := pySplitLines result
  if lines.length > 1 then
    (lines.headD "", String.intercalate "\n" lines.tail)
  else (takeChars 50 result ++ "...", result)

/-- `VideoTranscriber.generate_title_and_summary`.  `client = none` models a
missing OpenAI API key (`self.client is None`). -/
def generateTitleAndSummary (client : Option Client) (transcript_text : String)
    (_filename : String) : String × String :=
  if transcript_text = "" then ("Untitled Video", "No transcript available")
  else
    match client with
    | none => fallbackTitleAndSummary transcript_text
    | some cl =>
      let truncated :=
        if transcript_text.length > 14000 then takeChars 14000 transcript_text
        else transcript_text
      match cl.titleResp truncated with
      | .error _ => fallbackTitleAndSummary transcript_text
      | .ok resp =>
        let result := pyStrip resp
        match splitOnceSub "TITLE:" result, splitOnceSub "SUMMARY:" result with
        | some t, some s =>
          let title_part :=
            pyStrip (match splitOnceSub "SUMMARY:" t.2 with
                     | some ts => ts.1
                     | none => t.2)
          let summary_part := pyStrip s.2
          let summary_words := pySplitWs summary_part
          let summary_part :=
            if summary_words.length > 30 then
              String.intercalate " " (summary_words.take 30) ++ "..."
            else summary_part
          (title_part, summary_part)
        | _, _ => linesFallback result

-- scratch sanity checks for the fallback title
example :
    fallbackTitle "the quick brown fox jumps over the lazy dog" =
      "The quick brown fox jumps over the" := by decide
example : fallbackTitle "hello world." = "Hello world" := by decide

/-! ## Keyword generation (`VideoTranscriber.generate_keywords`) -/

/-- A row of the `keywords` table. -/
structure Keyword where
  id : Nat
  name : String
deriving Repr, DecidableEq

/-- The keyword table together with the next autoincrement id. -/
structure KwStore where
  rows : List Keyword
  nextId : Nat
deriving Repr, DecidableEq

/-- A Python dict keyed by string, as an association list with the newest
binding first (dict-comprehension overwrite and later insertion both
prepend). -/
def dictFind (d : List (String × α)) (key : String) : Option α :=
  (d.find? (fun p => p.1 == key)).map (·.2)

/-- The normalization core of `generate_keywords` (lines 124–163), taking the
already-stripped candidate strings parsed from the model response: drop empty
candidates, cap at 5, resolve casing against the existing table, then create
or reuse `Keyword` rows with the in-call dictionary updated after each
creation.  Returns the associated rows in order plus the updated table. -/
def generateKeywordsFromRaw (store : KwStore) (raw : List String) :
    List Keyword × KwStore :=
  let raw_keywords := (raw.filter (fun k => k ≠ "")).take 5
  let existing_keywords_original_case :=
    (store.rows.map (fun k => (pyLower k.name, k.name))).reverse
  let existing_keyword_dict :=
    (store.rows.map (fun k => (pyLower k.name, k))).reverse
  let keywords := raw_keywords.map (fun keyword =>
    let k_lower := pyLower keyword
    match dictFind existing_keywords_original_case k_lower with
    | some original => original
    | none => formatKeywordCase keyword)
  let step := fun (acc : List Keyword × List (String × Keyword) × List Keyword × Nat)
                  (k : String) =>
    let (objs, dict, created, nid) := acc
    let k_lower := pyLower k
    match dictFind dict k_lower with
    | some kw => (objs ++ [kw], dict, created, nid)
    | none =>
      let new_keyword : Keyword := ⟨nid, k⟩
      (objs ++ [new_keyword], (k_lower, new_keyword) :: dict,
       created ++ [new_keyword], nid + 1)
  let r := keywords.foldl step ([], existing_keyword_dict, [], store.nextId)
  (r.1, { rows := store.rows ++ r.2.2.1, nextId := r.2.2.2 })

/-- `VideoTranscriber.generate_keywords`: empty result on empty transcript,
missing client, or API failure; otherwise parse the comma-separated response
and normalize. -/
def generateKeywords (client : Option Client) (transcript_text : String)
    (store : KwStore) : List Keyword × KwStore :=
  if transcript_text = "" then ([], store)
  else
    match client with
    | none => ([], store)
    | some cl =>
      let truncated :=
        if transcript_text.length > 14000 then takeChars 14000 transcript_text
        else transcript_text
      match cl.kwResp truncated with
      | .error _ => ([], store)
      | .ok result =>
        let raw := (pySplitChar ',' (pyStrip result)).map pyStrip
        generateKeywordsFromRaw store raw

-- scratch sanity check for the C4 scenario
example :
    (generateKeywordsFromRaw ⟨[], 1⟩ ["AT&T", "at&t", "machine learning"]).1 =
      [⟨1, "AT&T"⟩, ⟨1, "AT&T"⟩, ⟨2, "Machine Learning"⟩] := by decide
example :
    (generateKeywordsFromRaw ⟨[], 1⟩ ["AT&T", "at&t", "machine learning"]).2.rows =
      [⟨1, "AT&T"⟩, ⟨2, "Machine Learning"⟩] := by decide

/-! ## File-size formatting (`format_filesize`, `transcriber.py` lines 358–367) -/

/-- Fixed-point rendering of `num / den` to one decimal digit
(Python `f"{num/den:.1f}"`, with the float division modelled by exact
rational rounding, ties to even). -/
def fmtFixed1 (num den : Nat) : String :=
  let s := 10 * num
  let q := s / den
  let r := s % den
  let q :=
    if 2 * r > den then q + 1
    else if 2 * r < den then q
    else if q % 2 = 0 then q else q + 1
  toString (q / 10) ++ "." ++ toString (q % 10)

/-- Fixed-point rendering of `num / den` to two decimal digits
(Python `f"{num/den:.2f}"`). -/
def fmtFixed2 (num den : Nat) : String :=
  let s := 100 * num
  let q := s / den
  let r := s % den
  let q :=
    if 2 * r > den then q + 1
    else if 2 * r < den then q
    else if q % 2 = 0 then q else q + 1
  toString (q / 100) ++ "." ++ toString (q % 100 / 10) ++ toString (q % 10)

/-- `format_filesize`: 1024-based human-readable size. -/
def formatFilesize (size_bytes : Nat) : String :=
  if size_bytes < 1024 then toString size_bytes ++ " B"
  else if size_bytes < 1024 * 1024 then fmtFixed1 size_bytes 1024 ++ " KB"
  else if size_bytes < 1024 * 1024 * 1024 then
    fmtFixed1 size_bytes (1024 * 1024) ++ " MB"
  else fmtFixed2 size_bytes (1024 * 1024 * 1024) ++ " GB"

-- scratch sanity checks
example : formatFilesize 500 = "500 B" := by decide
example : formatFilesize 2048 = "2.0 KB" := by decide
example : formatFilesize 5242880 = "5.0 MB" := by decide
example : formatFilesize 1536 = "1.5 KB" := by decide

/-! ## Catalog data model (`src/lib/database/models.py`)

Timestamps are abstract `Nat` ticks; the float-valued physical attributes
(`duration`, `fps`), which no claim inspects, are omitted. -/

/-- The `Transcription` row paired with each `Video` (the spec's Enrichment).
`keywords` holds the ids of the associated `Keyword` rows. -/
structure Transcription where
  is_transcribed : Bool
  transcribed_at : Option Nat
  transcript_text : Option String
  transcript_file : Option String
  suggested_title : Option String
  summary : Option String
  keywords : List Nat
deriving Repr, DecidableEq

/-- The empty `Transcription` created together with each new `Video`. -/
def emptyTranscription : Transcription := ⟨false, none, none, none, none, none, []⟩

/-- A `Video` row (the spec's Item) with its one-to-one `Transcription`.
`status` ranges over "New", "Transcribed", "Missing", "Error Transcribing". -/
structure Video where
  id : Nat
  filename : String
  filepath : String
  filesize : Nat
  encoding : String
  resolution : String
  width : Nat
  height : Nat
  bitrate : Nat
  status : String
  transcription : Transcription
deriving Repr, DecidableEq

/-! ## Collaborator oracles -/

/-- The result of `VideoProcessor.extract_metadata` (zeros on probe
failure). -/
structure VideoMetadata where
  filesize : Nat
  codec_name : String
  width : Nat
  height : Nat
  bitrate : Nat
deriving Repr, DecidableEq

/-- The filesystem as seen by one reconciliation pass: `found` is the list of
media files produced by the `os.walk` enumeration (in walk order), `onDisk`
is `os.path.exists`, and `probe` is the metadata extraction for a candidate
file (`none` models the per-file exception path, which skips the file). -/
structure FileSystem where
  found : List String
  onDisk : String → Bool
  probe : String → Option VideoMetadata

/-- `os.path.basename` for slash-separated paths. -/
def basename (p : String) : String :=
  ⟨(p.data.splitOnP (· = '/')).getLastD []⟩

/-- `os.path.splitext(s)[0]` (dotfile-only names are not modelled; the
filenames appearing in the claims all have a normal extension). -/
def stem (s : String) : String :=
  let parts := s.data.splitOnP (· = '.')
  if parts.length ≤ 1 then s else ⟨List.intercalate ['.'] parts.dropLast⟩

/-! ## Catalog Reconciler (`VideoProcessor`) -/

/-- `video.filepath in found_filepaths or os.path.exists(video.filepath)`. -/
def presentIn (fs : FileSystem) (p : String) : Bool :=
  fs.found.contains p || fs.onDisk p

/-- The per-video body of `VideoProcessor.check_missing_videos`: restore a
found `Missing` video according to `is_transcribed`, mark a vanished video
`Missing`, leave everything else unchanged. -/
def checkMissingVideo (fs : FileSystem) (video : Video) : Video :=
  if video.status == "Missing" then
    if presentIn fs video.filepath then
      { video with
        status := if video.transcription.is_transcribed then "Transcribed" else "New" }
    else video
  else
    if presentIn fs video.filepath then video
    else { video with status := "Missing" }

/-- The in-session effect of `VideoProcessor.check_missing_videos` over the
whole catalog: every video object is mutated per `checkMissingVideo`.
Whether these mutations become durable is governed by the conditional
commit modelled by `checkMissingCommitCond` below. -/
def checkMissingVideos (fs : FileSystem) (catalog : List Video) : List Video :=
  catalog.map (checkMissingVideo fs)

/-- The guard of the `session.commit()` at the end of
`check_missing_videos` (video_processor.py lines 161–163):
`missing_count > 0 or any(v.status == "Missing" for v in all_videos)`,
where `missing_count` counts the videos newly marked missing in this pass
and the `any` runs over the already-mutated video objects.  When this is
false the pass commits nothing, so a pure restoration is left pending. -/
def checkMissingCommitCond (fs : FileSystem) (catalog : List Video) : Bool :=
  let missing_count := (catalog.filter (fun v =>
    !(v.status == "Missing") && !(presentIn fs v.filepath))).length
  decide (missing_count > 0) ||
    (checkMissingVideos fs catalog).any (fun v => v.status == "Missing")

/-- The durable effect of a standalone `check_missing_videos` call (as made
by `get_untranscribed_videos`): the mutated catalog when the conditional
commit fires, otherwise the original catalog — the pending mutations are
rolled back when the enclosing session closes without another commit. -/
def checkMissingDurable (fs : FileSystem) (catalog : List Video) : List Video :=
  if checkMissingCommitCond fs catalog then checkMissingVideos fs catalog
  else catalog

/-- State threaded through the discovery pass of `scan_input_folder`:
the in-session catalog, the catalog as of the last `session.commit()`
(what survives the session's closing rollback), ids of newly created
videos, and the next autoincrement video id. -/
structure ScanState where
  catalog : List Video
  committed : List Video
  newIds : List Nat
  nextId : Nat
deriving Repr, DecidableEq

/-- `session.query(Video).filter_by(filename=filename).first()`. -/
def findByFilename (catalog : List Video) (filename : String) : Option Video :=
  catalog.find? (fun v => v.filename == filename)

/-- Mutating the first video with the given filename in place. -/
def setFirstByFilename : List Video → String → (Video → Video) → List Video
  | [], _, _ => []
  | v :: rest, filename, f =>
    if v.filename == filename then f v :: rest
    else v :: setFirstByFilename rest filename f

/-- The `Video(...)` constructor call of `scan_input_folder` with its paired
empty `Transcription`. -/
def newVideo (nid : Nat) (filename video_path : String) (m : VideoMetadata) : Video :=
  { id := nid, filename := filename, filepath := video_path,
    filesize := m.filesize, encoding := m.codec_name,
    resolution := toString m.width ++ "x" ++ toString m.height,
    width := m.width, height := m.height, bitrate := m.bitrate,
    status := "New", transcription := emptyTranscription }

/-- One iteration of the discovery loop of `scan_input_folder` (lines
64–117): restore a previously-missing video found again by filename (path
updated in place), skip an already-cataloged one, and otherwise create a new
video unless metadata extraction fails or yields unusable dimensions.  The
restore and create branches each end in a `session.commit()` (lines 75 and
110), which flushes *all* pending session changes: `committed` becomes the
whole in-session catalog. -/
def processFoundFile (fs : FileSystem) (st : ScanState) (video_path : String) :
    ScanState :=
  let filename := basename video_path
  match findByFilename st.catalog filename with
  | some existing_video =>
    if existing_video.status == "Missing" then
      let catalog := setFirstByFilename st.catalog filename
        (fun v => { v with status := "New", filepath := video_path })
      { st with catalog := catalog, committed := catalog }
    else st
  | none =>
    match fs.probe video_path with
    | none => st
    | some m =>
      if m.width == 0 || m.height == 0 then st
      else
        let catalog := st.catalog ++ [newVideo st.nextId filename video_path m]
        { catalog := catalog, committed := catalog,
          newIds := st.newIds ++ [st.nextId],
          nextId := st.nextId + 1 }

/-- `VideoProcessor.scan_input_folder`: one session running the
missing-check pass (committed only when its conditional commit fires)
followed by the discovery pass over the found files.  At session close the
pending changes are rolled back, so the durable catalog is `committed`;
`catalog` is the final in-session state. -/
def scanInputFolder (fs : FileSystem) (catalog : List Video) (nextId : Nat) :
    ScanState :=
  let catalog1 := checkMissingVideos fs catalog
  let committed0 := if checkMissingCommitCond fs catalog then catalog1 else catalog
  fs.found.foldl (processFoundFile fs) ⟨catalog1, committed0, [], nextId⟩

/-- `VideoProcessor.get_untranscribed_videos`: run the missing check, then
select the ids of videos with `is_transcribed == False` and
`status != "Missing"` (the query sees the in-session mutations).  Returns
the ids with the durable catalog — this session performs no commit of its
own after the missing check. -/
def getUntranscribedVideos (fs : FileSystem) (catalog : List Video) :
    List Nat × List Video :=
  let session_catalog := checkMissingVideos fs catalog
  ((session_catalog.filter (fun v =>
      v.transcription.is_transcribed == false && v.status != "Missing")).map Video.id,
   checkMissingDurable fs catalog)

/-! ## Enrichment Orchestrator (`VideoTranscriber.transcribe_videos`) -/

/-- The collaborators one orchestrator run depends on: `os.path.exists`, the
Whisper engine (`Except.error` models a raised exception), the optional
OpenAI client, whether the full-field commit of a given video id succeeds
(`False` models the `except` branch that retries with mandatory fields
only), the configured transcripts folder, and the current clock tick. -/
structure Oracle where
  fileExists : String → Bool
  engine : String → Except String String
  client : Option Client
  commitFullOk : Nat → Bool
  transcriptsFolder : String
  now : Nat

/-- Orchestrator state: the catalog, the keyword table, and the running
count of successfully transcribed videos. -/
structure OrchState where
  catalog : List Video
  kwStore : KwStore
  transcribedCount : Nat
deriving Repr, DecidableEq

/-- `session.query(Video).filter(Video.id == video_id).first()`. -/
def findById (catalog : List Video) (vid : Nat) : Option Video :=
  catalog.find? (fun v => v.id == vid)

/-- Mutating the first video with the given id in place. -/
def updateFirstById : List Video → Nat → (Video → Video) → List Video
  | [], _, _ => []
  | v :: rest, vid, f =>
    if v.id == vid then f v :: rest else v :: updateFirstById rest vid f

/-- The per-video body of `transcribe_videos` (lines 313–461): verify the
file, run the engine, derive title/summary/keywords, then commit all fields
(falling back to the mandatory fields only when the full commit fails, with
the rollback discarding the status change and the flushed keyword rows).
Any engine exception is caught at the item boundary and recorded as
`"Error Transcribing"` in its own session. -/
def stepVideo (o : Oracle) (st : OrchState) (video_id : Nat) : OrchState :=
  match findById st.catalog video_id with
  | none => st
  | some video =>
    if ¬ o.fileExists video.filepath then
      { st with
        catalog := updateFirstById st.catalog video_id
          (fun v => { v with status := "Missing" }) }
    else
      match o.engine video.filepath with
      | .error _ =>
        { st with
          catalog := updateFirstById st.catalog video_id
            (fun v => { v with status := "Error Transcribing" }) }
      | .ok transcript_text =>
        let ts := generateTitleAndSummary o.client transcript_text video.filename
        let kw := generateKeywords o.client transcript_text st.kwStore
        let transcript_path :=
          o.transcriptsFolder ++ "/" ++ stem video.filename ++ ".md"
        if o.commitFullOk video_id then
          { catalog := updateFirstById st.catalog video_id (fun v =>
              { v with
                status := "Transcribed",
                transcription :=
                  { is_transcribed := true,
                    transcribed_at := some o.now,
                    transcript_text := some transcript_text,
                    transcript_file := some transcript_path,
                    suggested_title := some ts.1,
                    summary := some ts.2,
                    keywords := kw.1.map Keyword.id } }),
            kwStore := kw.2,
            transcribedCount := st.transcribedCount + 1 }
        else
          { catalog := updateFirstById st.catalog video_id (fun v =>
              { v with
                transcription :=
                  { v.transcription with
                    is_transcribed := true,
                    transcribed_at := some o.now,
                    transcript_text := some transcript_text,
                    transcript_file := some transcript_path,
                    suggested_title := some ts.1 } }),
            kwStore := st.kwStore,
            transcribedCount := st.transcribedCount + 1 }

/-- The default eligibility query of `transcribe_videos` when called with
`video_ids=None` (lines 284–289): videos joined with their transcription and
filtered on `is_transcribed == False` only. -/
def transcribeSelection (catalog : List Video) : List Nat :=
  (catalog.filter (fun v => v.transcription.is_transcribed == false)).map Video.id

/-- `VideoTranscriber.transcribe_videos`. -/
def transcribeVideos (o : Oracle) (st : OrchState) (video_ids : Option (List Nat)) :
    OrchState :=
  let ids :=
    match video_ids with
    | some l => l
    | none => transcribeSelection st.catalog
  ids.foldl (stepVideo o) st

/-! ## The operations quantified over by the invariant claims -/

/-- One Reconciler or Orchestrator operation on the catalog: a full scan, a
standalone missing check, or an orchestrator batch (with arbitrary
collaborator behavior). -/
inductive CatalogOp where
  | scan (fs : FileSystem) (nextId : Nat)
  | checkMissing (fs : FileSystem)
  | orchestrate (o : Oracle) (kwStore : KwStore) (video_ids : Option (List Nat))

/-- The durable catalog after applying one operation: a scan leaves behind
its last-committed state, a standalone missing check commits only when its
guard fires, and every orchestrator branch commits its own transaction. -/
def applyOp : CatalogOp → List Video → List Video
  | .scan fs nid, catalog => (scanInputFolder fs catalog nid).committed
  | .checkMissing fs, catalog => checkMissingDurable fs catalog
  | .orchestrate o kw ids, catalog => (transcribeVideos o ⟨catalog, kw, 0⟩ ids).catalog

/-! ## Reduction lemmas: the branches of the reconciler and orchestrator steps -/

theorem processFoundFile_eq_restore (fs : FileSystem) (st : ScanState) (p : String)
    (ev : Video) (hfind : findByFilename st.catalog (basename p) = some ev)
    (hm : (ev.status == "Missing") = true) :
    processFoundFile fs st p =
      { st with
        catalog := setFirstByFilename st.catalog (basename p)
          (fun v => { v with status := "New", filepath := p }),
        committed := setFirstByFilename st.catalog (basename p)
          (fun v => { v with status := "New", filepath := p }) } := by
  unfold processFoundFile
  dsimp only
  rw [hfind]
  dsimp only
  rw [if_pos hm]

theorem processFoundFile_eq_skip_found (fs : FileSystem) (st : ScanState)
    (p : String) (ev : Video)
    (hfind : findByFilename st.catalog (basename p) = some ev)
    (hm : (ev.status == "Missing") = false) :
    processFoundFile fs st p = st := by
  unfold processFoundFile
  dsimp only
  rw [hfind]
  dsimp only
  rw [if_neg (by simp [hm])]

theorem processFoundFile_eq_skip_probe (fs : FileSystem) (st : ScanState)
    (p : String) (hfind : findByFilename st.catalog (basename p) = none)
    (hp : fs.probe p = none) :
    processFoundFile fs st p = st := by
  unfold processFoundFile
  dsimp only
  rw [hfind]
  dsimp only
  rw [hp]

theorem processFoundFile_eq_skip_dims (fs : FileSystem) (st : ScanState)
    (p : String) (m : VideoMetadata)
    (hfind : findByFilename st.catalog (basename p) = none)
    (hp : fs.probe p = some m) (hd : (m.width == 0 || m.height == 0) = true) :
    processFoundFile fs st p = st := by
  unfold processFoundFile
  dsimp only
  rw [hfind]
  dsimp only
  rw [hp]
  dsimp only
  rw [if_pos hd]

theorem processFoundFile_eq_create (fs : FileSystem) (st : ScanState)
    (p : String) (m : VideoMetadata)
    (hfind : findByFilename st.catalog (basename p) = none)
    (hp : fs.probe p = some m) (hd : (m.width == 0 || m.height == 0) = false) :
    processFoundFile fs st p =
      { catalog := st.catalog ++ [newVideo st.nextId (basename p) p m],
        committed := st.catalog ++ [newVideo st.nextId (basename p) p m],
        newIds := st.newIds ++ [st.nextId], nextId := st.nextId + 1 } := by
  unfold processFoundFile
  dsimp only
  rw [hfind]
  dsimp only
  rw [hp]
  dsimp only
  rw [if_neg (by simp [hd])]

theorem stepVideo_eq_notfound (o : Oracle) (st : OrchState) (vid : Nat)
    (hfind : findById st.catalog vid = none) : stepVideo o st vid = st := by
  unfold stepVideo
  rw [hfind]

theorem stepVideo_eq_missing (o : Oracle) (st : OrchState) (vid : Nat)
    (v : Video) (hfind : findById st.catalog vid = some v)
    (hex : o.fileExists v.filepath = false) :
    stepVideo o st vid =
      { st with
        catalog := updateFirstById st.catalog vid
          (fun w => { w with status := "Missing" }) } := by
  unfold stepVideo
  rw [hfind]
  dsimp only
  rw [if_pos (by simp [hex])]

theorem stepVideo_eq_error (o : Oracle) (st : OrchState) (vid : Nat)
    (v : Video) (e : String) (hfind : findById st.catalog vid = some v)
    (hex : o.fileExists v.filepath = true)
    (heng : o.engine v.filepath = Except.error e) :
    stepVideo o st vid =
      { st with
        catalog := updateFirstById st.catalog vid
          (fun w => { w with status := "Error Transcribing" }) } := by
  unfold stepVideo
  rw [hfind]
  dsimp only
  rw [if_neg (by simp [hex]), heng]

theorem stepVideo_eq_full_commit (o : Oracle) (st : OrchState) (vid : Nat)
    (v : Video) (transcript_text : String)
    (hfind : findById st.catalog vid = some v)
    (hex : o.fileExists v.filepath = true)
    (heng : o.engine v.filepath = Except.ok transcript_text)
    (hc : o.commitFullOk vid = true) :
    stepVideo o st vid =
      { catalog := updateFirstById st.catalog vid (fun w =>
          { w with
            status := "Transcribed",
            transcription :=
              { is_transcribed := true,
                transcribed_at := some o.now,
                transcript_text := some transcript_text,
                transcript_file :=
                  some (o.transcriptsFolder ++ "/" ++ stem v.filename ++ ".md"),
                suggested_title :=
                  (generateTitleAndSummary o.client transcript_text v.filename).1,
                summary :=
                  (generateTitleAndSummary o.client transcript_text v.filename).2,
                keywords :=
                  (generateKeywords o.client transcript_text st.kwStore).1.map
                    Keyword.id } }),
        kwStore := (generateKeywords o.client transcript_text st.kwStore).2,
        transcribedCount := st.transcribedCount + 1 } := by
  unfold stepVideo
  rw [hfind]
  dsimp only
  rw [if_neg (by simp [hex]), heng]
  dsimp only
  rw [if_pos hc]

theorem stepVideo_eq_fallback_commit (o : Oracle) (st : OrchState) (vid : Nat)
    (v : Video) (transcript_text : String)
    (hfind : findById st.catalog vid = some v)
    (hex : o.fileExists v.filepath = true)
    (heng : o.engine v.filepath = Except.ok transcript_text)
    (hc : o.commitFullOk vid = false) :
    stepVideo o st vid =
      { catalog := updateFirstById st.catalog vid (fun w =>
          { w with
            transcription :=
              { w.transcription with
                is_transcribed := true,
                transcribed_at := some o.now,
                transcript_text := some transcript_text,
                transcript_file :=
                  some (o.transcriptsFolder ++ "/" ++ stem v.filename ++ ".md"),
                suggested_title :=
                  (generateTitleAndSummary o.client transcript_text v.filename).1 } }),
        kwStore := st.kwStore,
        transcribedCount := st.transcribedCount + 1 } := by
  unfold stepVideo
  rw [hfind]
  dsimp only
  rw [if_neg (by simp [hex]), heng]
  dsimp only
  rw [if_neg (by simp [hc])]

/-! ## Helper lemmas -/

theorem charToNatOfNat (n : Nat) (h : n.isValidChar) : (Char.ofNat n).toNat = n := by
  unfold Char.ofNat
  rw [dif_pos h]
  rfl

theorem lowerChar_idem (c : Char) : lowerChar (lowerChar c) = lowerChar c := by
  unfold lowerChar
  by_cases h : c.toNat ≥ 65 ∧ c.toNat ≤ 90
  · rw [if_pos h]
    have hv : (c.toNat + 32).isValidChar := Or.inl (by omega)
    have ht : (Char.ofNat (c.toNat + 32)).toNat = c.toNat + 32 := charToNatOfNat _ hv
    rw [if_neg (by rw [ht]; omega)]
  · rw [if_neg h, if_neg h]

theorem pyLower_idem (s : String) : pyLower (pyLower s) = pyLower s := by
  show String.mk ((s.data.map lowerChar).map lowerChar) = String.mk (s.data.map lowerChar)
  rw [List.map_map]
  congr 1
  simp [Function.comp, lowerChar_idem]

/-! ## Claims about the pure text helpers -/

/-- **C3** (counterexample): the fallback title generator applied to
`"the quick brown fox jumps over the lazy dog"` does **not** return
`"The quick brown fox jumps over..."` — the appended ellipsis is removed
again by the trailing-punctuation strip, and the first 7 words include the
second `"the"`. -/
theorem fallback_title_fox_ne_claimed :
    (fallbackTitleAndSummary "the quick brown fox jumps over the lazy dog").1 ≠
      "The quick brown fox jumps over..." := by decide

/-- **C3** (amended): the fallback title for that transcript is
`"The quick brown fox jumps over the"`: the first 7 words, with the
appended `"..."` subsequently stripped by `rstrip(',.!?:;')` and the leading
letter capitalized; the same value is produced through
`generate_title_and_summary` without a client. -/
theorem fallback_title_fox :
    fallbackTitle "the quick brown fox jumps over the lazy dog" =
      "The quick brown fox jumps over the" ∧
    (generateTitleAndSummary none "the quick brown fox jumps over the lazy dog"
        "fox.mp4").1 =
      "The quick brown fox jumps over the" := by decide

/-- **C4**: on candidates `["AT&T", "at&t", "machine learning"]` with an
empty keyword table, the normalizer yields references to exactly 2 distinct
keyword identities — row 1 named `"AT&T"` (shared by the two case-variant
candidates) and row 2 named `"Machine Learning"` — and creates exactly those
2 rows, never a third. -/
theorem keyword_normalizer_att_two_rows :
    (generateKeywordsFromRaw ⟨[], 1⟩ ["AT&T", "at&t", "machine learning"]).1.map
        Keyword.id = [1, 1, 2] ∧
    (generateKeywordsFromRaw ⟨[], 1⟩ ["AT&T", "at&t", "machine learning"]).1.map
        Keyword.name = ["AT&T", "AT&T", "Machine Learning"] ∧
    ((generateKeywordsFromRaw ⟨[], 1⟩ ["AT&T", "at&t", "machine learning"]).1.map
        Keyword.id).dedup = [1, 2] ∧
    (generateKeywordsFromRaw ⟨[], 1⟩ ["AT&T", "at&t", "machine learning"]).2.rows =
      [⟨1, "AT&T"⟩, ⟨2, "Machine Learning"⟩] ∧
    (generateKeywordsFromRaw ⟨[], 1⟩
        ["AT&T", "at&t", "machine learning"]).2.rows.length = 2 := by decide

/-- **C8**: the file-size formatter returns `"500 B"`, `"2.0 KB"` and
`"5.0 MB"` on the three sample inputs, and in general uses the 1024-based
tiers: plain bytes below 1024, one-decimal KB below 1 Mi, one-decimal MB
below 1 Gi, and GB above. -/
theorem format_filesize_tiers :
    formatFilesize 500 = "500 B" ∧
    formatFilesize 2048 = "2.0 KB" ∧
    formatFilesize 5242880 = "5.0 MB" ∧
    (∀ n : Nat, n < 1024 → formatFilesize n = toString n ++ " B") ∧
    (∀ n : Nat, 1024 ≤ n → n < 1024 * 1024 →
      formatFilesize n = fmtFixed1 n 1024 ++ " KB") ∧
    (∀ n : Nat, 1024 * 1024 ≤ n → n < 1024 * 1024 * 1024 →
      formatFilesize n = fmtFixed1 n (1024 * 1024) ++ " MB") ∧
    (∀ n : Nat, 1024 * 1024 * 1024 ≤ n →
      formatFilesize n = fmtFixed2 n (1024 * 1024 * 1024) ++ " GB") := by
  refine ⟨by decide, by decide, by decide, ?_, ?_, ?_, ?_⟩
  · intro n h
    unfold formatFilesize
    rw [if_pos h]
  · intro n h1 h2
    unfold formatFilesize
    rw [if_neg (by omega), if_pos h2]
  · intro n h1 h2
    unfold formatFilesize
    rw [if_neg (by omega), if_neg (by omega), if_pos h2]
  · intro n h
    unfold formatFilesize
    rw [if_neg (by omega), if_neg (by omega), if_neg (by omega)]

/-- **C8** (witness): the general tier clauses evaluated at concrete sizes. -/
theorem format_filesize_tiers_witness :
    formatFilesize 100 = toString 100 ++ " B" ∧
    formatFilesize 2048 = fmtFixed1 2048 1024 ++ " KB" ∧
    formatFilesize 5242880 = fmtFixed1 5242880 (1024 * 1024) ++ " MB" ∧
    formatFilesize 2147483648 = fmtFixed2 2147483648 (1024 * 1024 * 1024) ++ " GB" := by
  have h := format_filesize_tiers
  exact ⟨h.2.2.2.1 100 (by omega),
         h.2.2.2.2.1 2048 (by omega) (by omega),
         h.2.2.2.2.2.1 5242880 (by omega) (by omega),
         h.2.2.2.2.2.2 2147483648 (by omega)⟩

/-- **C9**: for the empty transcript, `generate_title_and_summary` returns
`("Untitled Video", "No transcript available")` regardless of the client
(the collaborator is never consulted). -/
theorem generate_title_empty_transcript (client : Option Client) (filename : String) :
    generateTitleAndSummary client "" filename =
      ("Untitled Video", "No transcript available") := rfl

/-- **C10** (counterexample): `format_keyword_case` is not idempotent: on
`"a & b c"` it returns `"A &B C"`, but applied to its own output it returns
`"A &B c"` (the `&`-branch `capitalize()` lower-cases the later words). -/
theorem format_keyword_case_not_idempotent :
    formatKeywordCase (formatKeywordCase "a & b c") ≠
      formatKeywordCase "a & b c" := by decide

/-- **C10** (amended): the output of `format_keyword_case` depends only on
the lowercase form of its input — `format_keyword_case (k.lower()) =
format_keyword_case k` for every `k` — but the function is not idempotent,
because its own output is not always a fixed point (strings where `"&"` is
followed by several space-separated words change on reapplication). -/
theorem format_keyword_case_lower_invariant (k : String) :
    formatKeywordCase (pyLower k) = formatKeywordCase k := by
  unfold formatKeywordCase
  rw [pyLower_idem]

/-! ## C2: the default eligibility selection -/

/-- The selection claimed by the spec's contract, written from the spec's
words for comparison with `transcribeSelection`: all items with
`is_transcribed == false` **and** `status != Missing`. -/
def specClaimedSelection (catalog : List Video) : List Nat :=
  (catalog.filter (fun v =>
    v.transcription.is_transcribed == false && v.status != "Missing")).map Video.id

/-- An untranscribed video currently marked `Missing`. -/
def vMissingUntranscribed : Video :=
  { id := 1, filename := "a.mp4", filepath := "/in/a.mp4", filesize := 0,
    encoding := "", resolution := "", width := 640, height := 480, bitrate := 0,
    status := "Missing", transcription := emptyTranscription }

/-- **C2** (counterexample): with a single untranscribed `Missing` video,
`transcribe_videos(None)` selects it, while the claimed selection (which
excludes `Missing`) is empty — the processed set is not the claimed set. -/
theorem transcribe_selection_missing_not_excluded :
    transcribeSelection [vMissingUntranscribed] = [1] ∧
    specClaimedSelection [vMissingUntranscribed] = [] ∧
    transcribeSelection [vMissingUntranscribed] ≠
      specClaimedSelection [vMissingUntranscribed] := by decide

/-- **C2** (amended): when `transcribe_videos` is invoked with no explicit
id list it processes exactly the videos whose transcription has
`is_transcribed == false`, with no exclusion on `status` — `Missing` videos
are selected too.  (The `status != "Missing"` filter lives only in
`VideoProcessor.get_untranscribed_videos`, which the CLI uses to build an
explicit id list.) -/
theorem transcribe_selection_characterization (o : Oracle) (st : OrchState)
    (v : Video) (hv : v ∈ st.catalog) (hids : (st.catalog.map Video.id).Nodup) :
    transcribeVideos o st none =
      transcribeVideos o st (some (transcribeSelection st.catalog)) ∧
    (v.id ∈ transcribeSelection st.catalog ↔
      v.transcription.is_transcribed = false) := by
  refine ⟨rfl, ?_, ?_⟩
  · intro hmem
    obtain ⟨w, hw, hwid⟩ := List.mem_map.mp hmem
    have hwcat := (List.mem_filter.mp hw).1
    have hwp := (List.mem_filter.mp hw).2
    have hwv : w = v := List.inj_on_of_nodup_map hids hwcat hv hwid
    subst hwv
    simpa using hwp
  · intro hp
    exact List.mem_map.mpr ⟨v, List.mem_filter.mpr ⟨hv, by simp [hp]⟩, rfl⟩

/-- A quiet collaborator oracle used by concrete witnesses. -/
def oracleQuiet : Oracle :=
  { fileExists := fun _ => false, engine := fun _ => Except.error "down",
    client := none, commitFullOk := fun _ => true,
    transcriptsFolder := "/transcripts", now := 0 }

/-- **C2** (witness): the characterization evaluated on the one-video
catalog. -/
theorem transcribe_selection_characterization_witness :
    vMissingUntranscribed ∈ [vMissingUntranscribed] ∧
    ([vMissingUntranscribed].map Video.id).Nodup ∧
    (vMissingUntranscribed.id ∈ transcribeSelection [vMissingUntranscribed] ↔
      vMissingUntranscribed.transcription.is_transcribed = false) :=
  ⟨by decide, by decide,
   (transcribe_selection_characterization oracleQuiet
     ⟨[vMissingUntranscribed], ⟨[], 1⟩, 0⟩ vMissingUntranscribed
     (by decide) (by decide)).2⟩

/-! ## C7: per-item failure isolation in the orchestrator -/

theorem findById_update_self (cat : List Video) (vid : Nat) (f : Video → Video)
    (v : Video) (hf : ∀ w, (f w).id = w.id) (h : findById cat vid = some v) :
    findById (updateFirstById cat vid f) vid = some (f v) := by
  induction cat with
  | nil => simp [findById] at h
  | cons a rest ih =>
    by_cases ha : a.id == vid
    · have hav : a = v := by
        simpa [findById, List.find?_cons_of_pos, ha] using h
      subst hav
      have hfa : ((f a).id == vid) = true := by
        rw [hf a]; exact ha
      simp [updateFirstById, ha, findById, List.find?_cons_of_pos, hfa]
    · have ha' : (a.id == vid) = false := by simpa using ha
      have h' : findById rest vid = some v := by
        simpa [findById, List.find?_cons_of_neg, ha] using h
      have hrec := ih h'
      simp only [updateFirstById, ha', Bool.false_eq_true, if_false]
      simpa [findById, List.find?_cons_of_neg, ha] using hrec

theorem findById_update_other (cat : List Video) (vid : Nat) (f : Video → Video)
    (y : Nat) (hy : y ≠ vid) (hf : ∀ w, (f w).id = w.id) :
    findById (updateFirstById cat vid f) y = findById cat y := by
  induction cat with
  | nil => rfl
  | cons a rest ih =>
    by_cases ha : a.id == vid
    · have haid : a.id = vid := by simpa using ha
      have hvy : ¬ vid = y := fun hh => hy hh.symm
      have h1 : ((f a).id == y) = false := by
        simp [hf a, haid]
        exact hvy
      have h2 : (a.id == y) = false := by
        simp [haid]
        exact hvy
      simp [updateFirstById, ha, findById, List.find?_cons_of_neg, h1, h2]
    · have ha' : (a.id == vid) = false := by simpa using ha
      by_cases hay : a.id == y
      · simp [updateFirstById, ha', findById, List.find?_cons_of_pos, hay]
      · have hay' : (a.id == y) = false := by simpa using hay
        simp only [updateFirstById, ha', Bool.false_eq_true, if_false]
        simp [findById, List.find?_cons_of_neg, hay]
        exact ih

/-- **C7**: if the engine raises on item `x` of a batch, the orchestrator
(1) continues with the remaining items of the batch, (2) changes only item
`x`, setting its status to `"Error Transcribing"` in its own transaction and
touching neither the keyword table nor the transcribed count, (3) leaves
item `x`'s enrichment record exactly as it was (no half-written
enrichment), and (4) leaves every other item — in particular all items
already processed before `x` — in its previously committed state. -/
theorem engine_failure_isolated (o : Oracle) (st0 : OrchState)
    (pre post : List Nat) (x : Nat) (v : Video) (e : String)
    (hfind : findById (List.foldl (stepVideo o) st0 pre).catalog x = some v)
    (hex : o.fileExists v.filepath = true)
    (heng : o.engine v.filepath = Except.error e) :
    transcribeVideos o st0 (some (pre ++ x :: post)) =
      List.foldl (stepVideo o)
        (stepVideo o (List.foldl (stepVideo o) st0 pre) x) post ∧
    stepVideo o (List.foldl (stepVideo o) st0 pre) x =
      { List.foldl (stepVideo o) st0 pre with
        catalog := updateFirstById (List.foldl (stepVideo o) st0 pre).catalog x
          (fun w => { w with status := "Error Transcribing" }) } ∧
    findById (stepVideo o (List.foldl (stepVideo o) st0 pre) x).catalog x =
      some { v with status := "Error Transcribing" } ∧
    ∀ y, y ≠ x →
      findById (stepVideo o (List.foldl (stepVideo o) st0 pre) x).catalog y =
        findById (List.foldl (stepVideo o) st0 pre).catalog y := by
  have hstep : stepVideo o (List.foldl (stepVideo o) st0 pre) x =
      { List.foldl (stepVideo o) st0 pre with
        catalog := updateFirstById (List.foldl (stepVideo o) st0 pre).catalog x
          (fun w => { w with status := "Error Transcribing" }) } := by
    simp [stepVideo, hfind, hex, heng]
  refine ⟨?_, hstep, ?_, ?_⟩
  · simp [transcribeVideos, List.foldl_append]
  · rw [hstep]
    exact findById_update_self _ _ _ _ (fun _ => rfl) hfind
  · intro y hy
    rw [hstep]
    exact findById_update_other _ _ _ _ hy (fun _ => rfl)

/-- A cataloged, untranscribed video whose file is on disk. -/
def vNewUntranscribed : Video :=
  { id := 1, filename := "b.mp4", filepath := "/in/b.mp4", filesize := 2048,
    encoding := "h264", resolution := "640x480", width := 640, height := 480,
    bitrate := 1000, status := "New", transcription := emptyTranscription }

/-- An oracle whose transcription engine always raises. -/
def oracleEngineDown : Oracle :=
  { fileExists := fun _ => true, engine := fun _ => Except.error "boom",
    client := none, commitFullOk := fun _ => true,
    transcriptsFolder := "/transcripts", now := 0 }

/-- **C7** (witness): the isolation theorem evaluated on a one-video batch
whose engine call fails. -/
theorem engine_failure_isolated_witness :
    oracleEngineDown.fileExists vNewUntranscribed.filepath = true ∧
    oracleEngineDown.engine vNewUntranscribed.filepath = Except.error "boom" ∧
    findById (stepVideo oracleEngineDown
        (List.foldl (stepVideo oracleEngineDown)
          ⟨[vNewUntranscribed], ⟨[], 1⟩, 0⟩ []) 1).catalog 1 =
      some { vNewUntranscribed with status := "Error Transcribing" } := by
  have h := engine_failure_isolated oracleEngineDown
    ⟨[vNewUntranscribed], ⟨[], 1⟩, 0⟩ [] [] 1 vNewUntranscribed "boom"
    (by decide) rfl rfl
  exact ⟨rfl, rfl, h.2.2.1⟩

/-! ## C1: the status/is_transcribed invariant -/

/-- The spec's biconditional invariant:
`status == Transcribed` ⇔ `is_transcribed == true`. -/
def statusIffInvariant (catalog : List Video) : Prop :=
  ∀ v ∈ catalog, v.status = "Transcribed" ↔ v.transcription.is_transcribed = true

/-- The direction of the invariant the code actually maintains. -/
def statusFwdInvariant (catalog : List Video) : Prop :=
  ∀ v ∈ catalog, v.status = "Transcribed" → v.transcription.is_transcribed = true

/-- A transcribed video whose media file has vanished from disk. -/
def vTranscribedGone : Video :=
  { id := 3, filename := "c.mp4", filepath := "/in/c.mp4", filesize := 4096,
    encoding := "h264", resolution := "640x480", width := 640, height := 480,
    bitrate := 1000, status := "Transcribed",
    transcription := { emptyTranscription with is_transcribed := true } }

/-- A filesystem on which nothing is found. -/
def fsEmpty : FileSystem :=
  { found := [], onDisk := fun _ => false, probe := fun _ => none }

instance (catalog : List Video) : Decidable (statusIffInvariant catalog) := by
  unfold statusIffInvariant
  infer_instance

instance (catalog : List Video) : Decidable (statusFwdInvariant catalog) := by
  unfold statusFwdInvariant
  infer_instance

/-- **C1** (counterexample): the biconditional holds before, but after one
missing-check pass on a transcribed video whose file vanished it fails: the
video is `"Missing"` while `is_transcribed` stays `true`. -/
theorem status_iff_counterexample :
    statusIffInvariant [vTranscribedGone] ∧
    ¬ statusIffInvariant
        (applyOp (CatalogOp.checkMissing fsEmpty) [vTranscribedGone]) := by
  decide

/-- `videoStatusFwd v`: `v` respects the forward direction of the
invariant. -/
def videoStatusFwd (v : Video) : Prop :=
  v.status = "Transcribed" → v.transcription.is_transcribed = true

theorem checkMissingVideo_statusFwd (fs : FileSystem) (v : Video)
    (h : videoStatusFwd v) : videoStatusFwd (checkMissingVideo fs v) := by
  unfold checkMissingVideo videoStatusFwd
  by_cases h1 : (v.status == "Missing")
  · rw [if_pos h1]
    by_cases h2 : presentIn fs v.filepath
    · rw [if_pos h2]
      by_cases h3 : v.transcription.is_transcribed
      · intro _
        exact h3
      · have h3' : v.transcription.is_transcribed = false := by simpa using h3
        intro hst
        simp [h3'] at hst
    · rw [if_neg h2]
      exact h
  · rw [if_neg h1]
    by_cases h2 : presentIn fs v.filepath
    · rw [if_pos h2]
      exact h
    · rw [if_neg h2]
      intro hst
      simp at hst

theorem checkMissingVideos_statusFwd (fs : FileSystem) (catalog : List Video)
    (h : statusFwdInvariant catalog) :
    statusFwdInvariant (checkMissingVideos fs catalog) := by
  intro v hv
  obtain ⟨w, hw, rfl⟩ := List.mem_map.mp hv
  exact checkMissingVideo_statusFwd fs w (h w hw)

theorem setFirst_forall {P : Video → Prop} :
    ∀ (cat : List Video) (fname : String) (f : Video → Video),
      (∀ v ∈ cat, P v) → (∀ v, P (f v)) →
      ∀ v ∈ setFirstByFilename cat fname f, P v := by
  intro cat
  induction cat with
  | nil => intro fname f _ _ v hv; simp [setFirstByFilename] at hv
  | cons a rest ih =>
    intro fname f h hf v hv
    unfold setFirstByFilename at hv
    by_cases ha : (a.filename == fname)
    · rw [if_pos ha] at hv
      rcases List.mem_cons.mp hv with hv | hv
      · exact hv ▸ hf a
      · exact h v (List.mem_cons_of_mem a hv)
    · rw [if_neg ha] at hv
      rcases List.mem_cons.mp hv with hv | hv
      · exact hv ▸ h a (List.mem_cons_self a rest)
      · exact ih fname f (fun w hw => h w (List.mem_cons_of_mem a hw)) hf v hv

theorem updateFirst_forall {P : Video → Prop} :
    ∀ (cat : List Video) (vid : Nat) (f : Video → Video),
      (∀ v ∈ cat, P v) → (∀ v, P (f v)) →
      ∀ v ∈ updateFirstById cat vid f, P v := by
  intro cat
  induction cat with
  | nil => intro vid f _ _ v hv; simp [updateFirstById] at hv
  | cons a rest ih =>
    intro vid f h hf v hv
    unfold updateFirstById at hv
    by_cases ha : (a.id == vid)
    · rw [if_pos ha] at hv
      rcases List.mem_cons.mp hv with hv | hv
      · exact hv ▸ hf a
      · exact h v (List.mem_cons_of_mem a hv)
    · rw [if_neg ha] at hv
      rcases List.mem_cons.mp hv with hv | hv
      · exact hv ▸ h a (List.mem_cons_self a rest)
      · exact ih vid f (fun w hw => h w (List.mem_cons_of_mem a hw)) hf v hv

theorem processFoundFile_statusFwd (fs : FileSystem) (st : ScanState)
    (p : String) (h : statusFwdInvariant st.catalog)
    (hc : statusFwdInvariant st.committed) :
    statusFwdInvariant (processFoundFile fs st p).catalog ∧
    statusFwdInvariant (processFoundFile fs st p).committed := by
  cases hfind : findByFilename st.catalog (basename p) with
  | some ev =>
    by_cases hm : (ev.status == "Missing") = true
    · rw [processFoundFile_eq_restore fs st p ev hfind hm]
      have hset : statusFwdInvariant (setFirstByFilename st.catalog (basename p)
          (fun v => { v with status := "New", filepath := p })) :=
        setFirst_forall st.catalog (basename p) _ h (fun v hst => by simp at hst)
      exact ⟨hset, hset⟩
    · rw [processFoundFile_eq_skip_found fs st p ev hfind (by simpa using hm)]
      exact ⟨h, hc⟩
  | none =>
    cases hp : fs.probe p with
    | none =>
      rw [processFoundFile_eq_skip_probe fs st p hfind hp]
      exact ⟨h, hc⟩
    | some m =>
      by_cases hd : (m.width == 0 || m.height == 0) = true
      · rw [processFoundFile_eq_skip_dims fs st p m hfind hp hd]
        exact ⟨h, hc⟩
      · rw [processFoundFile_eq_create fs st p m hfind hp (by simpa using hd)]
        have happ : statusFwdInvariant
            (st.catalog ++ [newVideo st.nextId (basename p) p m]) := by
          intro v hv
          rcases List.mem_append.mp hv with hv | hv
          · exact h v hv
          · rcases List.mem_cons.mp hv with hv | hv
            · intro hst
              rw [hv] at hst
              simp [newVideo] at hst
            · simp at hv
        exact ⟨happ, happ⟩

theorem scanFold_statusFwd (fs : FileSystem) :
    ∀ (ps : List String) (st : ScanState),
      statusFwdInvariant st.catalog → statusFwdInvariant st.committed →
      statusFwdInvariant (List.foldl (processFoundFile fs) st ps).catalog ∧
      statusFwdInvariant (List.foldl (processFoundFile fs) st ps).committed := by
  intro ps
  induction ps with
  | nil => intro st h hc; exact ⟨h, hc⟩
  | cons p rest ih =>
    intro st h hc
    obtain ⟨h1, h2⟩ := processFoundFile_statusFwd fs st p h hc
    exact ih (processFoundFile fs st p) h1 h2

theorem stepVideo_statusFwd (o : Oracle) (st : OrchState) (vid : Nat)
    (h : statusFwdInvariant st.catalog) :
    statusFwdInvariant (stepVideo o st vid).catalog := by
  cases hfind : findById st.catalog vid with
  | none =>
    have hred : stepVideo o st vid = st := by
      unfold stepVideo
      rw [hfind]
    rw [hred]
    exact h
  | some video =>
    by_cases hex : (o.fileExists video.filepath)
    · cases heng : o.engine video.filepath with
      | error e =>
        have hred : stepVideo o st vid =
            { st with
              catalog := updateFirstById st.catalog vid
                (fun v => { v with status := "Error Transcribing" }) } := by
          unfold stepVideo
          rw [hfind]
          dsimp only
          rw [if_neg (by simp [hex]), heng]
        rw [hred]
        exact updateFirst_forall st.catalog vid _ h (fun v hst => by simp at hst)
      | ok transcript_text =>
        by_cases hc : (o.commitFullOk vid)
        · have hred : stepVideo o st vid =
              { catalog := updateFirstById st.catalog vid (fun v =>
                  { v with
                    status := "Transcribed",
                    transcription :=
                      { is_transcribed := true,
                        transcribed_at := some o.now,
                        transcript_text := some transcript_text,
                        transcript_file := some (o.transcriptsFolder ++ "/" ++
                          stem video.filename ++ ".md"),
                        suggested_title :=
                          (generateTitleAndSummary o.client transcript_text
                            video.filename).1,
                        summary :=
                          (generateTitleAndSummary o.client transcript_text
                            video.filename).2,
                        keywords :=
                          (generateKeywords o.client transcript_text
                            st.kwStore).1.map Keyword.id } }),
                kwStore := (generateKeywords o.client transcript_text st.kwStore).2,
                transcribedCount := st.transcribedCount + 1 } := by
            unfold stepVideo
            rw [hfind]
            dsimp only
            rw [if_neg (by simp [hex]), heng]
            dsimp only
            rw [if_pos hc]
          rw [hred]
          exact updateFirst_forall st.catalog vid _ h (fun v _ => rfl)
        · have hred : stepVideo o st vid =
              { catalog := updateFirstById st.catalog vid (fun v =>
                  { v with
                    transcription :=
                      { v.transcription with
                        is_transcribed := true,
                        transcribed_at := some o.now,
                        transcript_text := some transcript_text,
                        transcript_file := some (o.transcriptsFolder ++ "/" ++
                          stem video.filename ++ ".md"),
                        suggested_title :=
                          (generateTitleAndSummary o.client transcript_text
                            video.filename).1 } }),
                kwStore := st.kwStore,
                transcribedCount := st.transcribedCount + 1 } := by
            unfold stepVideo
            rw [hfind]
            dsimp only
            rw [if_neg (by simp [hex]), heng]
            dsimp only
            rw [if_neg hc]
          rw [hred]
          exact updateFirst_forall st.catalog vid _ h (fun v _ => rfl)
    · have hex' : o.fileExists video.filepath = false := by simpa using hex
      have hred : stepVideo o st vid =
          { st with
            catalog := updateFirstById st.catalog vid
              (fun v => { v with status := "Missing" }) } := by
        unfold stepVideo
        rw [hfind]
        dsimp only
        rw [if_pos (by simp [hex'])]
      rw [hred]
      exact updateFirst_forall st.catalog vid _ h (fun v hst => by simp at hst)

theorem orchFold_statusFwd (o : Oracle) :
    ∀ (ids : List Nat) (st : OrchState), statusFwdInvariant st.catalog →
      statusFwdInvariant (List.foldl (stepVideo o) st ids).catalog := by
  intro ids
  induction ids with
  | nil => intro st h; exact h
  | cons vid rest ih =>
    intro st h
    exact ih (stepVideo o st vid) (stepVideo_statusFwd o st vid h)

/-- **C1** (amended): the forward direction of the invariant —
`status == Transcribed → is_transcribed == true` — is preserved by every
Reconciler operation (scan, missing check) and every Orchestrator operation
(full commit, mandatory-fields-only fallback commit, error transition).  The
reverse direction is not an invariant: a transcribed video whose file
vanishes keeps `is_transcribed == true` with status `"Missing"`, and the
fallback commit sets `is_transcribed` without restoring the status. -/
theorem status_fwd_preserved (op : CatalogOp) (catalog : List Video)
    (h : statusFwdInvariant catalog) : statusFwdInvariant (applyOp op catalog) := by
  cases op with
  | scan fs nid =>
    show statusFwdInvariant (scanInputFolder fs catalog nid).committed
    unfold scanInputFolder
    dsimp only
    refine (scanFold_statusFwd fs fs.found _ ?_ ?_).2
    · exact checkMissingVideos_statusFwd fs catalog h
    · by_cases hcond : checkMissingCommitCond fs catalog = true
      · rw [if_pos hcond]
        exact checkMissingVideos_statusFwd fs catalog h
      · rw [if_neg hcond]
        exact h
  | checkMissing fs =>
    show statusFwdInvariant (checkMissingDurable fs catalog)
    unfold checkMissingDurable
    by_cases hcond : checkMissingCommitCond fs catalog = true
    · rw [if_pos hcond]
      exact checkMissingVideos_statusFwd fs catalog h
    · rw [if_neg hcond]
      exact h
  | orchestrate o kw ids =>
    unfold applyOp transcribeVideos
    exact orchFold_statusFwd o _ _ h

/-- **C1** (witness): the preservation theorem evaluated on the concrete
missing-check that breaks the biconditional. -/
theorem status_fwd_preserved_witness :
    statusFwdInvariant [vTranscribedGone] ∧
    statusFwdInvariant
      (applyOp (CatalogOp.checkMissing fsEmpty) [vTranscribedGone]) :=
  ⟨by decide,
   status_fwd_preserved (CatalogOp.checkMissing fsEmpty) [vTranscribedGone]
     (by decide)⟩

/-! ## C5: restoration of a removed-then-reintroduced file -/

theorem processFoundFile_head_preserved (fs : FileSystem) (st : ScanState)
    (p : String) (v0 : Video) (rest : List Video) (hcat : st.catalog = v0 :: rest)
    (hne : (v0.filename == basename p) = false ∨ (v0.status == "Missing") = false) :
    ∃ rest2, (processFoundFile fs st p).catalog = v0 :: rest2 := by
  cases hfind : findByFilename st.catalog (basename p) with
  | some ev =>
    by_cases hmm : (ev.status == "Missing") = true
    · by_cases hv : (v0.filename == basename p) = true
      · have hev : ev = v0 := by
          rw [hcat] at hfind
          simp only [findByFilename, List.find?, hv] at hfind
          exact (Option.some.inj hfind).symm
        rcases hne with hne | hne
        · rw [hv] at hne; exact absurd hne (by simp)
        · rw [hev] at hmm; rw [hmm] at hne; exact absurd hne (by simp)
      · have hv' : (v0.filename == basename p) = false := by simpa using hv
        rw [processFoundFile_eq_restore fs st p ev hfind hmm]
        dsimp only
        rw [hcat]
        unfold setFirstByFilename
        rw [if_neg (by simp [hv'])]
        exact ⟨_, rfl⟩
    · rw [processFoundFile_eq_skip_found fs st p ev hfind (by simpa using hmm)]
      exact ⟨rest, hcat⟩
  | none =>
    cases hp : fs.probe p with
    | none =>
      rw [processFoundFile_eq_skip_probe fs st p hfind hp]
      exact ⟨rest, hcat⟩
    | some m =>
      by_cases hd : (m.width == 0 || m.height == 0) = true
      · rw [processFoundFile_eq_skip_dims fs st p m hfind hp hd]
        exact ⟨rest, hcat⟩
      · rw [processFoundFile_eq_create fs st p m hfind hp (by simpa using hd)]
        dsimp only
        rw [hcat]
        exact ⟨rest ++ [newVideo st.nextId (basename p) p m], by simp⟩

theorem scanFold_head_stable (fs : FileSystem) (v0 : Video)
    (hm : (v0.status == "Missing") = false) :
    ∀ (ps : List String) (st : ScanState) (rest : List Video),
      st.catalog = v0 :: rest →
      ∃ rest2, (List.foldl (processFoundFile fs) st ps).catalog = v0 :: rest2 := by
  intro ps
  induction ps with
  | nil => intro st rest hcat; exact ⟨rest, hcat⟩
  | cons p qs ih =>
    intro st rest hcat
    obtain ⟨rest2, h2⟩ :=
      processFoundFile_head_preserved fs st p v0 rest hcat (Or.inr hm)
    exact ih (processFoundFile fs st p) rest2 h2

theorem processFoundFile_heads_preserved (fs : FileSystem) (st : ScanState)
    (p : String) (v0 : Video) (r1 r2 : List Video)
    (hcat : st.catalog = v0 :: r1) (hcom : st.committed = v0 :: r2)
    (hne : (v0.filename == basename p) = false ∨ (v0.status == "Missing") = false) :
    ∃ r1' r2', (processFoundFile fs st p).catalog = v0 :: r1' ∧
      (processFoundFile fs st p).committed = v0 :: r2' := by
  cases hfind : findByFilename st.catalog (basename p) with
  | some ev =>
    by_cases hmm : (ev.status == "Missing") = true
    · by_cases hv : (v0.filename == basename p) = true
      · have hev : ev = v0 := by
          rw [hcat] at hfind
          simp only [findByFilename, List.find?, hv] at hfind
          exact (Option.some.inj hfind).symm
        rcases hne with hne | hne
        · rw [hv] at hne; exact absurd hne (by simp)
        · rw [hev] at hmm; rw [hmm] at hne; exact absurd hne (by simp)
      · have hv' : (v0.filename == basename p) = false := by simpa using hv
        rw [processFoundFile_eq_restore fs st p ev hfind hmm]
        dsimp only
        rw [hcat]
        unfold setFirstByFilename
        rw [if_neg (by simp [hv'])]
        exact ⟨_, _, rfl, rfl⟩
    · rw [processFoundFile_eq_skip_found fs st p ev hfind (by simpa using hmm)]
      exact ⟨r1, r2, hcat, hcom⟩
  | none =>
    cases hp : fs.probe p with
    | none =>
      rw [processFoundFile_eq_skip_probe fs st p hfind hp]
      exact ⟨r1, r2, hcat, hcom⟩
    | some m =>
      by_cases hd : (m.width == 0 || m.height == 0) = true
      · rw [processFoundFile_eq_skip_dims fs st p m hfind hp hd]
        exact ⟨r1, r2, hcat, hcom⟩
      · rw [processFoundFile_eq_create fs st p m hfind hp (by simpa using hd)]
        dsimp only
        rw [hcat]
        exact ⟨r1 ++ [newVideo st.nextId (basename p) p m],
          r1 ++ [newVideo st.nextId (basename p) p m], by simp, by simp⟩

theorem scanFold_heads_stable (fs : FileSystem) (v0 : Video)
    (hm : (v0.status == "Missing") = false) :
    ∀ (ps : List String) (st : ScanState) (r1 r2 : List Video),
      st.catalog = v0 :: r1 → st.committed = v0 :: r2 →
      ∃ r1' r2', (List.foldl (processFoundFile fs) st ps).catalog = v0 :: r1' ∧
        (List.foldl (processFoundFile fs) st ps).committed = v0 :: r2' := by
  intro ps
  induction ps with
  | nil => intro st r1 r2 hcat hcom; exact ⟨r1, r2, hcat, hcom⟩
  | cons p qs ih =>
    intro st r1 r2 hcat hcom
    obtain ⟨r1', r2', h1, h2⟩ :=
      processFoundFile_heads_preserved fs st p v0 r1 r2 hcat hcom (Or.inr hm)
    exact ih (processFoundFile fs st p) r1' r2' h1 h2

theorem scanFold_head_restore (fs : FileSystem) (vM : Video)
    (hm : (vM.status == "Missing") = true) :
    ∀ (ps : List String) (st : ScanState) (rest : List Video),
      st.catalog = vM :: rest →
      (∃ p ∈ ps, basename p = vM.filename) →
      ∃ q rest2 rest3, q ∈ ps ∧ basename q = vM.filename ∧
        (List.foldl (processFoundFile fs) st ps).catalog =
          { vM with status := "New", filepath := q } :: rest2 ∧
        (List.foldl (processFoundFile fs) st ps).committed =
          { vM with status := "New", filepath := q } :: rest3 := by
  intro ps
  induction ps with
  | nil =>
    intro st rest hcat hex
    rcases hex with ⟨p, hp, _⟩
    simp at hp
  | cons p qs ih =>
    intro st rest hcat hex
    by_cases hbp : basename p = vM.filename
    · have hv : (vM.filename == basename p) = true := by simp [hbp]
      have hfind : findByFilename st.catalog (basename p) = some vM := by
        rw [hcat]
        simp only [findByFilename, List.find?, hv]
      have hstep := processFoundFile_eq_restore fs st p vM hfind hm
      have hset : setFirstByFilename st.catalog (basename p)
          (fun v => { v with status := "New", filepath := p }) =
          { vM with status := "New", filepath := p } :: rest := by
        rw [hcat]
        unfold setFirstByFilename
        rw [if_pos hv]
      have hcat2 : (processFoundFile fs st p).catalog =
          { vM with status := "New", filepath := p } :: rest := by
        rw [hstep]
        exact hset
      have hcom2 : (processFoundFile fs st p).committed =
          { vM with status := "New", filepath := p } :: rest := by
        rw [hstep]
        exact hset
      have hnm : (({ vM with status := "New", filepath := p } : Video).status ==
          "Missing") = false := rfl
      obtain ⟨rest2, rest3, hrest2, hrest3⟩ :=
        scanFold_heads_stable fs _ hnm qs (processFoundFile fs st p) rest rest
          hcat2 hcom2
      exact ⟨p, rest2, rest3, List.mem_cons_self p qs, hbp, hrest2, hrest3⟩
    · have hv' : (vM.filename == basename p) = false := by
        simp
        exact fun hh => hbp hh.symm
      obtain ⟨rest2, h2⟩ :=
        processFoundFile_head_preserved fs st p vM rest hcat (Or.inl hv')
      obtain ⟨q0, hq0, hbq0⟩ := hex
      rcases List.mem_cons.mp hq0 with rfl | hq0'
      · exact absurd hbq0 hbp
      obtain ⟨q, rest3, rest4, hq, hbq, hrest3, hrest4⟩ :=
        ih (processFoundFile fs st p) rest2 h2 ⟨q0, hq0', hbq0⟩
      exact ⟨q, rest3, rest4, List.mem_cons_of_mem p hq, hbq, hrest3, hrest4⟩

/-- A transcribed video currently marked `Missing` at its old path. -/
def vMissingTranscribed : Video :=
  { id := 4, filename := "d.mp4", filepath := "/old/d.mp4", filesize := 4096,
    encoding := "h264", resolution := "640x480", width := 640, height := 480,
    bitrate := 1000, status := "Missing",
    transcription := { emptyTranscription with is_transcribed := true } }

/-- A filesystem on which the file reappears under the same name at a
different path. -/
def fsRelocated : FileSystem :=
  { found := ["/new/d.mp4"], onDisk := fun _ => false, probe := fun _ => none }

/-- **C5** (counterexample): a transcribed `Missing` video reintroduced with
the identical filename at a *different* path is restored by the discovery
pass — which commits — with status `"New"`, durably: not `"Transcribed"` as
the claim requires for `is_transcribed == true`. -/
theorem restore_relocated_counterexample :
    (scanInputFolder fsRelocated [vMissingTranscribed] 5).committed =
      [{ vMissingTranscribed with status := "New", filepath := "/new/d.mp4" }] ∧
    (scanInputFolder fsRelocated [vMissingTranscribed] 5).catalog =
      [{ vMissingTranscribed with status := "New", filepath := "/new/d.mp4" }] ∧
    vMissingTranscribed.transcription.is_transcribed = true ∧
    ("New" : String) ≠ "Transcribed" := by decide

/-! ## C6: idempotence of the reconciler -/

/-- After a pass, each video's status is coherent with the filesystem:
`Missing` exactly when its path is absent. -/
def presCoherent (fs : FileSystem) (v : Video) : Prop :=
  (v.status = "Missing" → presentIn fs v.filepath = false) ∧
  (v.status ≠ "Missing" → presentIn fs v.filepath = true)

theorem checkMissingVideo_presCoherent (fs : FileSystem) (v : Video) :
    presCoherent fs (checkMissingVideo fs v) := by
  unfold checkMissingVideo presCoherent
  by_cases h1 : (v.status == "Missing")
  · rw [if_pos h1]
    by_cases h2 : presentIn fs v.filepath
    · rw [if_pos h2]
      constructor
      · intro hmiss
        cases hb : v.transcription.is_transcribed <;> simp [hb] at hmiss
      · intro _
        exact h2
    · rw [if_neg h2]
      refine ⟨fun _ => by simpa using h2, fun hne => ?_⟩
      exact absurd (by simpa using h1) hne
  · rw [if_neg h1]
    by_cases h2 : presentIn fs v.filepath
    · rw [if_pos h2]
      exact ⟨fun hmiss => absurd hmiss (by simpa using h1), fun _ => h2⟩
    · rw [if_neg h2]
      exact ⟨fun _ => by simpa using h2, fun hne => absurd rfl hne⟩

theorem foundPresent (fs : FileSystem) (p : String) (hp : p ∈ fs.found) :
    presentIn fs p = true := by
  unfold presentIn
  have h1 : fs.found.contains p = true := List.elem_eq_true_of_mem hp
  rw [h1]
  rfl

theorem processFoundFile_presCoherent (fs : FileSystem) (st : ScanState)
    (p : String) (hp : presentIn fs p = true)
    (h : ∀ v ∈ st.catalog, presCoherent fs v) :
    ∀ v ∈ (processFoundFile fs st p).catalog, presCoherent fs v := by
  cases hfind : findByFilename st.catalog (basename p) with
  | some ev =>
    by_cases hmm : (ev.status == "Missing") = true
    · rw [processFoundFile_eq_restore fs st p ev hfind hmm]
      exact setFirst_forall st.catalog (basename p) _ h
        (fun v => ⟨fun hmiss => by simp at hmiss, fun _ => hp⟩)
    · rw [processFoundFile_eq_skip_found fs st p ev hfind (by simpa using hmm)]
      exact h
  | none =>
    cases hpr : fs.probe p with
    | none =>
      rw [processFoundFile_eq_skip_probe fs st p hfind hpr]
      exact h
    | some m =>
      by_cases hd : (m.width == 0 || m.height == 0) = true
      · rw [processFoundFile_eq_skip_dims fs st p m hfind hpr hd]
        exact h
      · rw [processFoundFile_eq_create fs st p m hfind hpr (by simpa using hd)]
        intro v hv
        rcases List.mem_append.mp hv with hv | hv
        · exact h v hv
        · rcases List.mem_cons.mp hv with hv | hv
          · rw [hv]
            exact ⟨fun hmiss => by simp [newVideo] at hmiss, fun _ => hp⟩
          · simp at hv

theorem scanFold_presCoherent (fs : FileSystem) :
    ∀ (ps : List String) (st : ScanState), (∀ p ∈ ps, presentIn fs p = true) →
      (∀ v ∈ st.catalog, presCoherent fs v) →
      ∀ v ∈ (List.foldl (processFoundFile fs) st ps).catalog, presCoherent fs v := by
  intro ps
  induction ps with
  | nil => intro st _ h; exact h
  | cons p qs ih =>
    intro st hps h
    exact ih (processFoundFile fs st p)
      (fun q hq => hps q (List.mem_cons_of_mem p hq))
      (processFoundFile_presCoherent fs st p (hps p (List.mem_cons_self p qs)) h)

/-- The discovery pass skipped this path because creation was impossible:
metadata extraction failed, or the probed dimensions were unusable. -/
def creationSkip (fs : FileSystem) (p : String) : Prop :=
  fs.probe p = none ∨ ∃ m, fs.probe p = some m ∧ (m.width == 0 || m.height == 0) = true

/-- After the discovery pass has handled path `p`, the catalog is settled at
`p`: the video carrying `basename p` is not `Missing`, or no such video
exists and none can be created. -/
def settledAt (fs : FileSystem) (catalog : List Video) (p : String) : Prop :=
  match findByFilename catalog (basename p) with
  | some v => (v.status == "Missing") = false
  | none => creationSkip fs p

theorem findByFilename_setFirst_same (cat : List Video) (fname : String)
    (f : Video → Video) (hf : ∀ v, (f v).filename = v.filename) :
    findByFilename (setFirstByFilename cat fname f) fname =
      (findByFilename cat fname).map f := by
  induction cat with
  | nil => rfl
  | cons a rest ih =>
    by_cases ha : (a.filename == fname) = true
    · have hfa : ((f a).filename == fname) = true := by rw [hf a]; exact ha
      unfold setFirstByFilename
      rw [if_pos ha]
      unfold findByFilename
      simp only [List.find?, hfa, ha]
      rfl
    · have ha' : (a.filename == fname) = false := by simpa using ha
      unfold setFirstByFilename
      rw [if_neg (by simp [ha'])]
      unfold findByFilename
      simp only [List.find?, ha']
      exact ih

theorem findByFilename_setFirst_other (cat : List Video) (fname fname' : String)
    (f : Video → Video) (hf : ∀ v, (f v).filename = v.filename)
    (hne : fname' ≠ fname) :
    findByFilename (setFirstByFilename cat fname f) fname' =
      findByFilename cat fname' := by
  induction cat with
  | nil => rfl
  | cons a rest ih =>
    by_cases ha : (a.filename == fname) = true
    · have haf : a.filename = fname := by simpa using ha
      have h1 : ((f a).filename == fname') = false := by
        rw [hf a, haf]
        simp
        exact fun hh => hne hh.symm
      have h2 : (a.filename == fname') = false := by
        rw [haf]
        simp
        exact fun hh => hne hh.symm
      unfold setFirstByFilename
      rw [if_pos ha]
      unfold findByFilename
      simp only [List.find?, h1, h2]
    · have ha' : (a.filename == fname) = false := by simpa using ha
      unfold setFirstByFilename
      rw [if_neg (by simp [ha'])]
      unfold findByFilename
      by_cases hay : (a.filename == fname') = true
      · simp only [List.find?, hay]
      · have hay' : (a.filename == fname') = false := by simpa using hay
        simp only [List.find?, hay']
        exact ih

theorem processFoundFile_settles (fs : FileSystem) (st : ScanState) (p : String) :
    settledAt fs (processFoundFile fs st p).catalog p := by
  cases hfind : findByFilename st.catalog (basename p) with
  | some ev =>
    by_cases hmm : (ev.status == "Missing") = true
    · rw [processFoundFile_eq_restore fs st p ev hfind hmm]
      unfold settledAt
      dsimp only
      rw [findByFilename_setFirst_same st.catalog (basename p)
        (fun v => { v with status := "New", filepath := p }) (fun _ => rfl),
        hfind]
      rfl
    · rw [processFoundFile_eq_skip_found fs st p ev hfind (by simpa using hmm)]
      unfold settledAt
      rw [hfind]
      simpa using hmm
  | none =>
    cases hpr : fs.probe p with
    | none =>
      rw [processFoundFile_eq_skip_probe fs st p hfind hpr]
      unfold settledAt
      rw [hfind]
      exact Or.inl hpr
    | some m =>
      by_cases hd : (m.width == 0 || m.height == 0) = true
      · rw [processFoundFile_eq_skip_dims fs st p m hfind hpr hd]
        unfold settledAt
        rw [hfind]
        exact Or.inr ⟨m, hpr, hd⟩
      · rw [processFoundFile_eq_create fs st p m hfind hpr (by simpa using hd)]
        unfold settledAt findByFilename
        rw [List.find?_append]
        unfold findByFilename at hfind
        rw [hfind]
        simp only [Option.none_or]
        have hnv : ((newVideo st.nextId (basename p) p m).filename ==
            basename p) = true := by simp [newVideo]
        simp only [List.find?, hnv]
        rfl

theorem processFoundFile_keeps_settled (fs : FileSystem) (st : ScanState)
    (p q : String) (hq : settledAt fs st.catalog q) :
    settledAt fs (processFoundFile fs st p).catalog q := by
  cases hfind : findByFilename st.catalog (basename p) with
  | some ev =>
    by_cases hmm : (ev.status == "Missing") = true
    · rw [processFoundFile_eq_restore fs st p ev hfind hmm]
      by_cases hbq : basename q = basename p
      · unfold settledAt at hq
        rw [hbq, hfind] at hq
        dsimp only at hq
        rw [hmm] at hq
        exact absurd hq (by simp)
      · unfold settledAt
        dsimp only
        rw [findByFilename_setFirst_other st.catalog (basename p) (basename q)
          (fun v => { v with status := "New", filepath := p })
          (fun _ => rfl) hbq]
        exact hq
    · rw [processFoundFile_eq_skip_found fs st p ev hfind (by simpa using hmm)]
      exact hq
  | none =>
    cases hpr : fs.probe p with
    | none =>
      rw [processFoundFile_eq_skip_probe fs st p hfind hpr]
      exact hq
    | some m =>
      by_cases hd : (m.width == 0 || m.height == 0) = true
      · rw [processFoundFile_eq_skip_dims fs st p m hfind hpr hd]
        exact hq
      · rw [processFoundFile_eq_create fs st p m hfind hpr (by simpa using hd)]
        unfold settledAt
        unfold settledAt at hq
        unfold findByFilename
        dsimp only
        rw [List.find?_append]
        cases hfq : List.find? (fun v => v.filename == basename q) st.catalog with
        | some w =>
          unfold findByFilename at hq
          rw [hfq] at hq
          exact hq
        | none =>
          unfold findByFilename at hq
          rw [hfq] at hq
          by_cases hbq : ((newVideo st.nextId (basename p) p m).filename ==
              basename q) = true
          · simp only [List.find?, hbq]
            rfl
          · have hbq' := (Bool.not_eq_true _).mp hbq
            simp only [List.find?, hbq']
            exact hq

theorem scanFold_keeps_settled (fs : FileSystem) :
    ∀ (ps : List String) (st : ScanState) (q : String),
      settledAt fs st.catalog q →
      settledAt fs (List.foldl (processFoundFile fs) st ps).catalog q := by
  intro ps
  induction ps with
  | nil => intro st q hq; exact hq
  | cons p qs ih =>
    intro st q hq
    exact ih (processFoundFile fs st p) q
      (processFoundFile_keeps_settled fs st p q hq)

theorem scanFold_settles_all (fs : FileSystem) :
    ∀ (ps : List String) (st : ScanState) (p : String), p ∈ ps →
      settledAt fs (List.foldl (processFoundFile fs) st ps).catalog p := by
  intro ps
  induction ps with
  | nil => intro st p hp; simp at hp
  | cons r qs ih =>
    intro st p hp
    rcases List.mem_cons.mp hp with rfl | hp'
    · exact scanFold_keeps_settled fs qs (processFoundFile fs st p) p
        (processFoundFile_settles fs st p)
    · exact ih (processFoundFile fs st r) p hp'

theorem checkMissingVideo_id (fs : FileSystem) (v : Video)
    (h : presCoherent fs v) : checkMissingVideo fs v = v := by
  unfold checkMissingVideo
  by_cases h1 : (v.status == "Missing") = true
  · rw [if_pos h1, if_neg]
    rw [h.1 (by simpa using h1)]
    simp
  · rw [if_neg (by simp [h1]), if_pos]
    exact h.2 (by simpa using h1)

theorem map_id_on {α : Type} (f : α → α) :
    ∀ (l : List α), (∀ x ∈ l, f x = x) → l.map f = l := by
  intro l
  induction l with
  | nil => intro _; rfl
  | cons x xs ih =>
    intro h
    simp only [List.map_cons, h x (List.mem_cons_self x xs),
      ih (fun y hy => h y (List.mem_cons_of_mem x hy))]

theorem checkMissingVideos_id (fs : FileSystem) (catalog : List Video)
    (h : ∀ v ∈ catalog, presCoherent fs v) :
    checkMissingVideos fs catalog = catalog :=
  map_id_on _ catalog (fun v hv => checkMissingVideo_id fs v (h v hv))

theorem processFoundFile_id (fs : FileSystem) (st : ScanState) (p : String)
    (h : settledAt fs st.catalog p) : processFoundFile fs st p = st := by
  unfold settledAt at h
  cases hfind : findByFilename st.catalog (basename p) with
  | some ev =>
    rw [hfind] at h
    exact processFoundFile_eq_skip_found fs st p ev hfind h
  | none =>
    rw [hfind] at h
    rcases h with h | ⟨m, hpr, hd⟩
    · exact processFoundFile_eq_skip_probe fs st p hfind h
    · exact processFoundFile_eq_skip_dims fs st p m hfind hpr hd

theorem scanFold_id (fs : FileSystem) :
    ∀ (ps : List String) (st : ScanState),
      (∀ p ∈ ps, settledAt fs st.catalog p) →
      List.foldl (processFoundFile fs) st ps = st := by
  intro ps
  induction ps with
  | nil => intro st _; rfl
  | cons p qs ih =>
    intro st h
    have hstep : processFoundFile fs st p = st :=
      processFoundFile_id fs st p (h p (List.mem_cons_self p qs))
    simp only [List.foldl_cons, hstep]
    exact ih st (fun q hq => h q (List.mem_cons_of_mem p hq))

/-- **C5** (amended): a `Missing` item whose file reappears is handled in
three régimes.  (1) If its stored path is present again, the missing-check
pass restores it in the session to `New`/`Transcribed` according to
`is_transcribed`; (2) but when that restoration is the only pending change —
no file with another name is creatable — the pass's conditional commit does
not fire, nothing else commits, and the restoration is rolled back at
session close: the item durably remains `Missing`.  (3) If the file is found
only under its identical filename at some (possibly different) path, the
discovery pass restores it to `"New"` unconditionally — regardless of
`is_transcribed` — updates the stored path, and durably commits it. -/
theorem restore_status_after_scan (fs : FileSystem) (nid : Nat) (v : Video)
    (hm : v.status = "Missing") :
    (presentIn fs v.filepath = true →
      checkMissingVideo fs v =
        { v with status :=
            if v.transcription.is_transcribed then "Transcribed" else "New" }) ∧
    (presentIn fs v.filepath = true →
      (∀ p ∈ fs.found, basename p = v.filename ∨ creationSkip fs p) →
      scanInputFolder fs [v] nid =
        ⟨[{ v with status :=
            if v.transcription.is_transcribed then "Transcribed" else "New" }],
          [v], [], nid⟩) ∧
    (presentIn fs v.filepath = false →
      ∀ p ∈ fs.found, basename p = v.filename →
      ∃ q rest2 rest3, q ∈ fs.found ∧ basename q = v.filename ∧
        (scanInputFolder fs [v] nid).catalog =
          { v with status := "New", filepath := q } :: rest2 ∧
        (scanInputFolder fs [v] nid).committed =
          { v with status := "New", filepath := q } :: rest3) := by
  have hmb : (v.status == "Missing") = true := by simp [hm]
  have hnm : (({ v with status :=
      if v.transcription.is_transcribed then "Transcribed" else "New" } :
        Video).status == "Missing") = false := by
    cases hb : v.transcription.is_transcribed <;> simp [hb]
  refine ⟨?_, ?_, ?_⟩
  · intro hpres
    unfold checkMissingVideo
    rw [if_pos hmb, if_pos hpres]
  · intro hpres hall
    have hcm : checkMissingVideos fs [v] =
        [{ v with status :=
            if v.transcription.is_transcribed then "Transcribed" else "New" }] := by
      unfold checkMissingVideos checkMissingVideo
      rw [List.map_singleton, if_pos hmb, if_pos hpres]
    have hcond : checkMissingCommitCond fs [v] = false := by
      unfold checkMissingCommitCond checkMissingVideos checkMissingVideo
      cases hb : v.transcription.is_transcribed <;>
        simp [hm, hpres, hb]
    have hcondneg : ¬ (checkMissingCommitCond fs [v] = true) := by
      simp [hcond]
    show List.foldl (processFoundFile fs)
        ⟨checkMissingVideos fs [v],
         if checkMissingCommitCond fs [v] then checkMissingVideos fs [v]
         else [v], [], nid⟩ fs.found = _
    rw [hcm, if_neg hcondneg]
    apply scanFold_id
    intro p hp
    unfold settledAt findByFilename
    by_cases hfn : (({ v with status :=
        if v.transcription.is_transcribed then "Transcribed" else "New" } :
          Video).filename == basename p) = true
    · simp only [List.find?, hfn]
      exact hnm
    · have hfn' := (Bool.not_eq_true _).mp hfn
      simp only [List.find?, hfn', List.find?_nil]
      rcases hall p hp with hbp | hskip
      · exfalso
        rw [hbp] at hfn'
        simp at hfn'
      · exact hskip
  · intro hpres p hp hbp
    have hcm0 : checkMissingVideos fs [v] = [v] := by
      unfold checkMissingVideos checkMissingVideo
      rw [List.map_singleton, if_pos hmb, if_neg (by simp [hpres])]
    have hrun : scanInputFolder fs [v] nid =
        List.foldl (processFoundFile fs) ⟨[v], [v], [], nid⟩ fs.found := by
      show List.foldl (processFoundFile fs)
          ⟨checkMissingVideos fs [v],
           if checkMissingCommitCond fs [v] then checkMissingVideos fs [v]
           else [v], [], nid⟩ fs.found = _
      rw [hcm0, ite_self]
    obtain ⟨q, rest2, rest3, hq, hbq, hrest2, hrest3⟩ :=
      scanFold_head_restore fs v hmb fs.found ⟨[v], [v], [], nid⟩ [] rfl
        ⟨p, hp, hbp⟩
    rw [hrun]
    exact ⟨q, rest2, rest3, hq, hbq, hrest2, hrest3⟩

/-- **C5** (witness): the amended theorem evaluated on the relocated
transcribed video — the durable catalog records the `"New"` restoration at
the new path. -/
theorem restore_status_after_scan_witness :
    (scanInputFolder fsRelocated [vMissingTranscribed] 5).committed.head? =
      some { vMissingTranscribed with status := "New", filepath := "/new/d.mp4" } := by
  obtain ⟨q, rest2, rest3, hq, _, hcat, hcom⟩ :=
    (restore_status_after_scan fsRelocated 5 vMissingTranscribed rfl).2.2
      (by decide) "/new/d.mp4" (by decide) (by decide)
  have hq' : q = "/new/d.mp4" := by simpa [fsRelocated] using hq
  rw [hq'] at hcom
  rw [hcom]
  rfl

theorem processFoundFile_committed_cases (fs : FileSystem) (A : Prop)
    (K C1 : List Video) (st : ScanState) (p : String)
    (h : st.committed = st.catalog ∨
      (A ∧ st.committed = K ∧ st.catalog = C1 ∧ st.newIds = [])) :
    (processFoundFile fs st p).committed = (processFoundFile fs st p).catalog ∨
      (A ∧ (processFoundFile fs st p).committed = K ∧
        (processFoundFile fs st p).catalog = C1 ∧
        (processFoundFile fs st p).newIds = []) := by
  cases hfind : findByFilename st.catalog (basename p) with
  | some ev =>
    by_cases hmm : (ev.status == "Missing") = true
    · rw [processFoundFile_eq_restore fs st p ev hfind hmm]
      exact Or.inl rfl
    · rw [processFoundFile_eq_skip_found fs st p ev hfind (by simpa using hmm)]
      exact h
  | none =>
    cases hp2 : fs.probe p with
    | none =>
      rw [processFoundFile_eq_skip_probe fs st p hfind hp2]
      exact h
    | some m =>
      by_cases hd : (m.width == 0 || m.height == 0) = true
      · rw [processFoundFile_eq_skip_dims fs st p m hfind hp2 hd]
        exact h
      · rw [processFoundFile_eq_create fs st p m hfind hp2 (by simpa using hd)]
        exact Or.inl rfl

theorem scanFold_committed_cases (fs : FileSystem) (A : Prop)
    (K C1 : List Video) :
    ∀ (ps : List String) (st : ScanState),
      (st.committed = st.catalog ∨
        (A ∧ st.committed = K ∧ st.catalog = C1 ∧ st.newIds = [])) →
      ((List.foldl (processFoundFile fs) st ps).committed =
          (List.foldl (processFoundFile fs) st ps).catalog ∨
        (A ∧ (List.foldl (processFoundFile fs) st ps).committed = K ∧
          (List.foldl (processFoundFile fs) st ps).catalog = C1 ∧
          (List.foldl (processFoundFile fs) st ps).newIds = [])) := by
  intro ps
  induction ps with
  | nil => intro st h; exact h
  | cons p qs ih =>
    intro st h
    exact ih (processFoundFile fs st p)
      (processFoundFile_committed_cases fs A K C1 st p h)

/-- **C6**: running the Reconciler twice against the same filesystem state is
idempotent.  After one `scan_input_folder` pass, (i) a further missing-check
pass changes nothing in the session state; (ii) a full second scan from the
first pass's session state returns it unchanged and fully committed, with an
empty list of newly created ids; and (iii) durably, a second scan from the
first pass's committed catalog leaves that committed catalog unchanged and
creates no new items. -/
theorem scan_idempotent (fs : FileSystem) (catalog : List Video) (nid nid2 : Nat) :
    checkMissingVideos fs (scanInputFolder fs catalog nid).catalog =
      (scanInputFolder fs catalog nid).catalog ∧
    scanInputFolder fs (scanInputFolder fs catalog nid).catalog nid2 =
      ⟨(scanInputFolder fs catalog nid).catalog,
       (scanInputFolder fs catalog nid).catalog, [], nid2⟩ ∧
    (scanInputFolder fs (scanInputFolder fs catalog nid).committed nid2).committed =
      (scanInputFolder fs catalog nid).committed ∧
    (scanInputFolder fs (scanInputFolder fs catalog nid).committed nid2).newIds =
      [] := by
  have hrun : scanInputFolder fs catalog nid =
      List.foldl (processFoundFile fs)
        ⟨checkMissingVideos fs catalog,
         if checkMissingCommitCond fs catalog then checkMissingVideos fs catalog
         else catalog, [], nid⟩ fs.found := rfl
  have hco : ∀ v ∈ (scanInputFolder fs catalog nid).catalog, presCoherent fs v := by
    rw [hrun]
    exact scanFold_presCoherent fs fs.found _
      (fun p hp => foundPresent fs p hp)
      (fun v hv => by
        obtain ⟨w, _, rfl⟩ := List.mem_map.mp hv
        exact checkMissingVideo_presCoherent fs w)
  have hsettled : ∀ p ∈ fs.found,
      settledAt fs (scanInputFolder fs catalog nid).catalog p := by
    rw [hrun]
    exact fun p hp => scanFold_settles_all fs fs.found _ p hp
  have hcm2 : checkMissingVideos fs (scanInputFolder fs catalog nid).catalog =
      (scanInputFolder fs catalog nid).catalog :=
    checkMissingVideos_id fs _ hco
  have hfull : scanInputFolder fs (scanInputFolder fs catalog nid).catalog nid2 =
      ⟨(scanInputFolder fs catalog nid).catalog,
       (scanInputFolder fs catalog nid).catalog, [], nid2⟩ := by
    show List.foldl (processFoundFile fs)
        ⟨checkMissingVideos fs (scanInputFolder fs catalog nid).catalog,
         if checkMissingCommitCond fs (scanInputFolder fs catalog nid).catalog
         then checkMissingVideos fs (scanInputFolder fs catalog nid).catalog
         else (scanInputFolder fs catalog nid).catalog, [], nid2⟩ fs.found = _
    rw [hcm2, ite_self]
    exact scanFold_id fs fs.found _ (fun p hp => hsettled p hp)
  have hcase := scanFold_committed_cases fs
    (checkMissingCommitCond fs catalog = false) catalog
    (checkMissingVideos fs catalog) fs.found
    ⟨checkMissingVideos fs catalog,
     if checkMissingCommitCond fs catalog then checkMissingVideos fs catalog
     else catalog, [], nid⟩
    (by
      by_cases hcond : checkMissingCommitCond fs catalog = true
      · exact Or.inl (by dsimp only; rw [if_pos hcond])
      · have hcond' : checkMissingCommitCond fs catalog = false := by
          simpa using hcond
        have hcn : ¬ (checkMissingCommitCond fs catalog = true) := by
          simp [hcond']
        exact Or.inr ⟨hcond', by dsimp only; rw [if_neg hcn], rfl, rfl⟩)
  rw [← hrun] at hcase
  have hdur : (scanInputFolder fs (scanInputFolder fs catalog nid).committed
        nid2).committed = (scanInputFolder fs catalog nid).committed ∧
      (scanInputFolder fs (scanInputFolder fs catalog nid).committed
        nid2).newIds = [] := by
    rcases hcase with hleft | ⟨hcond, hK, hC1, _⟩
    · constructor
      · rw [hleft, hfull]
      · rw [hleft, hfull]
    · have hrun2 : scanInputFolder fs catalog nid2 =
          List.foldl (processFoundFile fs)
            ⟨checkMissingVideos fs catalog, catalog, [], nid2⟩ fs.found := by
        show List.foldl (processFoundFile fs)
            ⟨checkMissingVideos fs catalog,
             if checkMissingCommitCond fs catalog
             then checkMissingVideos fs catalog else catalog, [], nid2⟩
            fs.found = _
        have hcn2 : ¬ (checkMissingCommitCond fs catalog = true) := by
          simp [hcond]
        rw [if_neg hcn2]
      have hsettled2 : ∀ p ∈ fs.found,
          settledAt fs (checkMissingVideos fs catalog) p := by
        intro p hp
        have hsp := hsettled p hp
        rw [hC1] at hsp
        exact hsp
      have hscan2 : scanInputFolder fs catalog nid2 =
          ⟨checkMissingVideos fs catalog, catalog, [], nid2⟩ := by
        rw [hrun2]
        exact scanFold_id fs fs.found _ (fun p hp => hsettled2 p hp)
      constructor
      · rw [hK, hscan2]
      · rw [hK, hscan2]
  exact ⟨hcm2, hfull, hdur.1, hdur.2⟩

end MediaCatalog
